import Mathlib

/-!
Verification of the drawlatch ingestor subsystem against its specification.

The TypeScript sources are embedded shallowly:
* `RingBuffer` mirrors `src/remote/ingestors/ring-buffer.ts` (the fixed-length
  backing array is a `List (Option α)`, JS `undefined` slots are `none`);
* `BaseIngestor` mirrors `src/remote/ingestors/base-ingestor.ts`;
* the Stripe, Trello and GitHub verification functions mirror the files under
  `src/remote/ingestors/webhook/`; Node's `crypto.createHmac(...)` digests are
  external primitives and are passed in as explicit function arguments;
* `IngestorManager.getAllEvents` mirrors `src/remote/ingestors/manager.js`.

JS numbers appearing here are small non-negative counters and Unix timestamps,
modelled as `Nat` / `Int` (no overflow is reachable at these magnitudes).
-/

namespace Drawlatch

/-- JS truthiness of an optional string field: `undefined` and `""` are falsy. -/
def jsTruthy : Option String → Bool
  | none => false
  | some s => !s.toList.isEmpty

/-- Model of the JS single-character `String.prototype.split(sep)`:
`"".split(sep) = [""]`, adjacent separators yield empty fields.  (Defined by
structural recursion over the character list so that concrete instances
evaluate inside the kernel.) -/
def splitOnChar (sep : Char) : List Char → List (List Char)
  | [] => [[]]
  | c :: rest =>
    match splitOnChar sep rest with
    | [] => [[]]
    | g :: gs => if c = sep then [] :: g :: gs else (c :: g) :: gs

def jsSplit (sep : Char) (s : String) : List String :=
  (splitOnChar sep s.toList).map String.mk

/-- The JS whitespace set (ECMA `WhiteSpace` ∪ `LineTerminator`): TAB, LF,
VT, FF, CR, SP, NBSP, U+1680, U+2000-U+200A, LS, PS, U+202F, U+205F,
U+3000, ZWNBSP. -/
def isJsWhitespace (c : Char) : Bool :=
  let n := c.toNat
  decide (n = 0x9 ∨ n = 0xA ∨ n = 0xB ∨ n = 0xC ∨ n = 0xD ∨ n = 0x20 ∨
    n = 0xA0 ∨ n = 0x1680 ∨ (0x2000 ≤ n ∧ n ≤ 0x200A) ∨ n = 0x2028 ∨
    n = 0x2029 ∨ n = 0x202F ∨ n = 0x205F ∨ n = 0x3000 ∨ n = 0xFEFF)

/-- Model of JS `String.prototype.trim()`: strips leading and trailing JS
whitespace. -/
def jsTrim (s : String) : String :=
  String.mk
    (((s.toList.dropWhile isJsWhitespace).reverse.dropWhile isJsWhitespace).reverse)

/-- Lookup in a JS string-record (modelled as an association list whose keys
are unique, so first match is the value). -/
def jsLookup (m : List (String × String)) (k : String) : Option String :=
  (m.find? (fun p => p.1 == k)).map (·.2)

-- ── Ring buffer (src/remote/ingestors/ring-buffer.ts) ───────────────────

/-- State of `RingBuffer<T>`: `buffer` is the fixed-length backing array
(`new Array(capacity)`, unfilled slots = `none`), `head` the next write
position, `count` the number of stored items. -/
structure RingBuffer (α : Type) where
  capacity : Nat
  buffer : List (Option α)
  head : Nat
  count : Nat
deriving Repr

/-- Constructor `new RingBuffer(capacity)`. -/
def RingBuffer.new (α : Type) (capacity : Nat) : RingBuffer α :=
  { capacity := capacity
    buffer := List.replicate capacity none
    head := 0
    count := 0 }

/-- Method `push(item)`: write at `head`, advance `head` modulo capacity, saturate
`count` at capacity.  (`List.set` is a no-op out of bounds; under the
reachability invariant `head < capacity = buffer.length` it always writes.) -/
def RingBuffer.push (s : RingBuffer α) (item : α) : RingBuffer α :=
  { s with
    buffer := s.buffer.set s.head (some item)
    head := (s.head + 1) % s.capacity
    count := if s.count < s.capacity then s.count + 1 else s.count }

/-- The start index `(head - count + capacity) % capacity` computed in
`toArray()`.  In the source the subtraction is over JS numbers; since
`count ≤ head + capacity` on every reachable state, the `Nat` form
`(head + capacity - count) % capacity` agrees with it. -/
def RingBuffer.startIndex (s : RingBuffer α) : Nat :=
  (s.head + s.capacity - s.count) % s.capacity

/-- Method `toArray()`: the `count` stored items, oldest first.  The source reads
`this.buffer[(start + i) % this.capacity] as T`, asserting the slot is
filled; correspondingly the `filterMap` drops nothing on reachable states
(every read slot is `some`, proved in `RingBuffer.Inv` lemmas below). -/
def RingBuffer.toArray (s : RingBuffer α) : List α :=
  (List.range s.count).filterMap
    (fun i => s.buffer.getD ((s.startIndex + i) % s.capacity) none)

/-- Method `since(afterId)`: items whose numeric `id` field exceeds `afterId`.  The
dynamic `typeof id === 'number'` test of the source is modelled by the `id`
projection returning `Option Int` (`none` = not a number). -/
def RingBuffer.since (s : RingBuffer α) (getId : α → Option Int) (afterId : Int) :
    List α :=
  s.toArray.filter (fun item =>
    match getId item with
    | some id => decide (id > afterId)
    | none => false)

/-- Getter `get size()`. -/
def RingBuffer.size (s : RingBuffer α) : Nat :=
  s.count

/-- Method `clear()`: fresh backing array, reset `head` and `count`. -/
def RingBuffer.clear (s : RingBuffer α) : RingBuffer α :=
  { s with
    buffer := List.replicate s.capacity none
    head := 0
    count := 0 }

/-- Apply a sequence of pushes `p0..pn`, left to right. -/
def RingBuffer.pushAll (s : RingBuffer α) (ps : List α) : RingBuffer α :=
  ps.foldl RingBuffer.push s

-- ── Ring buffer invariant ───────────────────────────────────────────────

/-- The sequence of slot reads performed by `toArray()`, before the
`as T` cast: entry `i` is the raw (`Option`-valued) content of logical
slot `i`. -/
def RingBuffer.toArrayAux (s : RingBuffer α) : List (Option α) :=
  (List.range s.count).map
    (fun i => s.buffer.getD ((s.startIndex + i) % s.capacity) none)

theorem RingBuffer.toArray_eq_filterMap_aux (s : RingBuffer α) :
    s.toArray = s.toArrayAux.filterMap id := by
  simp [RingBuffer.toArray, RingBuffer.toArrayAux, List.filterMap_map]

/-- Invariant of every `RingBuffer` state reachable from `new` with a
positive capacity: the backing array has length `capacity`, `head` is in
range, `count` saturates at `capacity`, and every logical slot read by
`toArray()` is filled. -/
def RingBuffer.Inv (s : RingBuffer α) : Prop :=
  0 < s.capacity ∧ s.buffer.length = s.capacity ∧ s.head < s.capacity ∧
    s.count ≤ s.capacity ∧ ∀ o ∈ s.toArrayAux, o ≠ none

theorem RingBuffer.inv_new (α : Type) (c : Nat) (hc : 0 < c) :
    (RingBuffer.new α c).Inv := by
  refine ⟨hc, by simp [RingBuffer.new], by simpa [RingBuffer.new] using hc,
    by simp [RingBuffer.new], ?_⟩
  intro o ho
  simp [RingBuffer.toArrayAux, RingBuffer.new] at ho

-- A list of options none of which is `none` is `map some` of its projection.

theorem filterMap_id_map_some (l : List α) : (l.map some).filterMap id = l := by
  induction l with
  | nil => rfl
  | cons a t ih => simp [ih]

theorem eq_map_some_filterMap (l : List (Option α)) (h : ∀ o ∈ l, o ≠ none) :
    l = (l.filterMap id).map some := by
  induction l with
  | nil => rfl
  | cons a t ih =>
    cases a with
    | none => exact absurd rfl (h none (by simp))
    | some v =>
      have := ih (fun o ho => h o (by simp [ho]))
      simpa using this

theorem RingBuffer.toArrayAux_eq (s : RingBuffer α) (h : s.Inv) :
    s.toArrayAux = s.toArray.map some := by
  rw [RingBuffer.toArray_eq_filterMap_aux]
  exact eq_map_some_filterMap _ h.2.2.2.2

theorem RingBuffer.length_toArray (s : RingBuffer α) (h : s.Inv) :
    s.toArray.length = s.count := by
  have h1 : s.toArrayAux.length = s.count := by
    simp [RingBuffer.toArrayAux]
  have h2 := congrArg List.length (RingBuffer.toArrayAux_eq s h)
  simp [h1] at h2
  omega

-- Modular index arithmetic used by `push`/`toArray`.

theorem add_mod_ne_self (c h m : Nat) (hh : h < c) (hm1 : 0 < m) (hm2 : m < c) :
    (h + m) % c ≠ h := by
  intro heq
  have hc : 0 < c := lt_of_le_of_lt (Nat.zero_le _) hh
  have h' : (h + m) % c = h % c := by rw [heq, Nat.mod_eq_of_lt hh]
  have hmod : Nat.ModEq c h (h + m) := (Nat.ModEq.symm h')
  have hdvd : c ∣ (h + m) - h := (Nat.modEq_iff_dvd' (Nat.le_add_right _ _)).mp hmod
  have : c ∣ m := by simpa using hdvd
  have := Nat.eq_zero_of_dvd_of_lt this hm2
  omega

/-- The key step of `toArray` correctness: pushing appends the new item,
dropping the oldest element first when the buffer is at capacity. -/
theorem RingBuffer.toArrayAux_push (s : RingBuffer α) (h : s.Inv) (x : α) :
    (s.push x).toArrayAux =
      if s.count < s.capacity then s.toArrayAux ++ [some x]
      else s.toArrayAux.tail ++ [some x] := by
  obtain ⟨hc, hlen, hh, hcnt, _⟩ := h
  set c := s.capacity with hcdef
  set hd := s.head with hhdef
  set n := s.count with hndef
  have hgetset : ∀ j, (s.buffer.set hd (some x)).getD j none =
      if hd = j then some x else s.buffer.getD j none := by
    intro j
    rw [List.getD_eq_getElem?_getD, List.getD_eq_getElem?_getD, List.getElem?_set]
    split
    · simp [hlen, ← hcdef, ← hhdef, hh]
    · rfl
  by_cases hlt : n < c
  · -- buffer not yet full: the start index is unchanged and the new item
    -- lands in the slot right after the old window
    have hstart : (s.push x).startIndex = s.startIndex := by
      simp only [RingBuffer.startIndex, RingBuffer.push, ← hcdef, ← hhdef, ← hndef,
        if_pos hlt]
      by_cases hsucc : hd + 1 < c
      · rw [Nat.mod_eq_of_lt hsucc]
        congr 1
        omega
      · have hh1 : hd + 1 = c := by omega
        rw [hh1, Nat.mod_self]
        have h2 : hd + c - n = c + (c - (n + 1)) := by omega
        rw [Nat.zero_add, h2, Nat.add_mod_left]
    have hcount : (s.push x).count = n + 1 := by
      simp [RingBuffer.push, ← hndef, ← hcdef, hlt]
    simp only [if_pos hlt]
    simp only [RingBuffer.toArrayAux, hcount, hstart, List.range_succ, List.map_append,
      List.map_cons, List.map_nil]
    congr 1
    · -- entries 0..n-1 read the old slots, which are untouched
      apply List.map_congr_left
      intro i hi
      rw [List.mem_range] at hi
      show (s.push x).buffer.getD ((s.startIndex + i) % (s.push x).capacity) none = _
      have hcap : (s.push x).capacity = c := rfl
      rw [hcap]
      show (s.buffer.set hd (some x)).getD ((s.startIndex + i) % c) none = _
      rw [hgetset]
      have hne : (s.startIndex + i) % c ≠ hd := by
        have hrw : (s.startIndex + i) % c = (hd + (c - n + i)) % c := by
          simp only [RingBuffer.startIndex, ← hcdef, ← hhdef, ← hndef]
          rw [Nat.mod_add_mod]
          congr 1
          omega
        rw [hrw]
        exact add_mod_ne_self c hd (c - n + i) hh (by omega) (by omega)
      rw [if_neg (fun hq => hne hq.symm)]
    · -- entry n is the newly written slot
      show [(s.push x).buffer.getD ((s.startIndex + n) % (s.push x).capacity) none] = _
      have hcap : (s.push x).capacity = c := rfl
      rw [hcap]
      show [(s.buffer.set hd (some x)).getD ((s.startIndex + n) % c) none] = _
      have hidx : (s.startIndex + n) % c = hd := by
        simp only [RingBuffer.startIndex, ← hcdef, ← hhdef, ← hndef]
        rw [Nat.mod_add_mod]
        have : hd + c - n + n = hd + c := by omega
        rw [this, Nat.add_mod_right, Nat.mod_eq_of_lt hh]
      rw [hidx, hgetset, if_pos rfl]
  · -- buffer at capacity: the window slides by one
    have hn : n = c := by omega
    have hcount : (s.push x).count = c := by
      simp [RingBuffer.push, ← hndef, ← hcdef, hlt, hn]
    have hpcap : (s.push x).capacity = c := rfl
    have hphead : (s.push x).head = (hd + 1) % c := rfl
    have hstart : (s.push x).startIndex = (hd + 1) % c := by
      rw [RingBuffer.startIndex, hpcap, hphead, hcount, Nat.add_sub_cancel]
      exact Nat.mod_eq_of_lt (Nat.mod_lt _ hc)
    have hstartold : s.startIndex = hd := by
      simp only [RingBuffer.startIndex, ← hcdef, ← hhdef, ← hndef, hn]
      rw [Nat.add_sub_cancel, Nat.mod_eq_of_lt hh]
    simp only [if_neg hlt]
    have hc1 : c = (c - 1) + 1 := by omega
    have htail : s.toArrayAux.tail =
        (List.range (c - 1)).map
          (fun i => s.buffer.getD ((hd + (i + 1)) % c) none) := by
      simp only [RingBuffer.toArrayAux, ← hndef, hn, ← hcdef, hstartold]
      rw [hc1, List.range_succ_eq_map]
      simp [List.map_map, Function.comp, Nat.add_comm]
    have hlhs : (s.push x).toArrayAux =
        (List.range c).map
          (fun i => (s.buffer.set hd (some x)).getD (((hd + 1) % c + i) % c) none) := by
      simp only [RingBuffer.toArrayAux, hcount, hstart, hpcap]
      rfl
    have hrange : List.range c = List.range (c - 1) ++ [c - 1] := by
      conv_lhs => rw [hc1]
      rw [List.range_succ]
    rw [hlhs, htail, hrange, List.map_append, List.map_cons, List.map_nil]
    congr 1
    · apply List.map_congr_left
      intro i hi
      rw [List.mem_range] at hi
      rw [hgetset]
      have hrw : ((hd + 1) % c + i) % c = (hd + (1 + i)) % c := by
        rw [Nat.mod_add_mod]
        congr 1
        omega
      have hne : ((hd + 1) % c + i) % c ≠ hd := by
        rw [hrw]
        exact add_mod_ne_self c hd (1 + i) hh (by omega) (by omega)
      rw [if_neg (fun hq => hne hq.symm)]
      have hidx : ((hd + 1) % c + i) % c = (hd + (i + 1)) % c := by
        rw [hrw]
        congr 1
        omega
      rw [hidx]
    · have hidx : ((hd + 1) % c + (c - 1)) % c = hd := by
        rw [Nat.mod_add_mod]
        have : hd + 1 + (c - 1) = hd + c := by omega
        rw [this, Nat.add_mod_right, Nat.mod_eq_of_lt hh]
      rw [hidx, hgetset, if_pos rfl]

theorem RingBuffer.inv_push (s : RingBuffer α) (h : s.Inv) (x : α) :
    (s.push x).Inv := by
  obtain ⟨hc, hlen, hh, hcnt, hfill⟩ := h
  refine ⟨hc, by simpa [RingBuffer.push] using hlen, ?_, ?_, ?_⟩
  · exact Nat.mod_lt _ hc
  · simp only [RingBuffer.push]
    split <;> omega
  · intro o ho
    rw [RingBuffer.toArrayAux_push s ⟨hc, hlen, hh, hcnt, hfill⟩ x] at ho
    split at ho
    · rcases List.mem_append.mp ho with h1 | h1
      · exact hfill o h1
      · simp at h1; simp [h1]
    · rcases List.mem_append.mp ho with h1 | h1
      · exact hfill o (List.mem_of_mem_tail h1)
      · simp at h1; simp [h1]

theorem RingBuffer.toArray_push (s : RingBuffer α) (h : s.Inv) (x : α) :
    (s.push x).toArray =
      if s.count < s.capacity then s.toArray ++ [x] else s.toArray.tail ++ [x] := by
  rw [RingBuffer.toArray_eq_filterMap_aux, RingBuffer.toArrayAux_push s h x]
  split
  · rw [List.filterMap_append, ← RingBuffer.toArray_eq_filterMap_aux]
    simp
  · rw [List.filterMap_append]
    rw [RingBuffer.toArrayAux_eq s h]
    rw [← List.map_tail, filterMap_id_map_some]
    simp

theorem RingBuffer.inv_pushAll (s : RingBuffer α) (h : s.Inv) (ps : List α) :
    (s.pushAll ps).Inv := by
  induction ps generalizing s with
  | nil => exact h
  | cons p t ih => exact ih _ (RingBuffer.inv_push s h p)

theorem RingBuffer.pushAll_append (s : RingBuffer α) (ps : List α) (x : α) :
    s.pushAll (ps ++ [x]) = (s.pushAll ps).push x := by
  simp [RingBuffer.pushAll, List.foldl_append]

theorem RingBuffer.toArray_new (α : Type) (c : Nat) :
    (RingBuffer.new α c).toArray = [] := by
  simp [RingBuffer.toArray, RingBuffer.new]

theorem RingBuffer.size_pushAll (α : Type) (c : Nat) (ps : List α) :
    ((RingBuffer.new α c).pushAll ps).size = min ps.length c := by
  induction ps using List.reverseRecOn with
  | nil => simp [RingBuffer.pushAll, RingBuffer.size, RingBuffer.new]
  | append_singleton t x ih =>
    rw [RingBuffer.pushAll_append]
    have hcap : ((RingBuffer.new α c).pushAll t).capacity = c := by
      clear ih
      induction t using List.reverseRecOn with
      | nil => rfl
      | append_singleton t' y ih' => rw [RingBuffer.pushAll_append]; exact ih'
    show (if _ < _ then _ + 1 else _) = _
    rw [RingBuffer.size] at ih
    simp only [hcap, ih]
    rcases Nat.lt_or_ge t.length c with hl | hl
    · rw [if_pos (by omega)]
      simp
      omega
    · rw [if_neg (by omega)]
      simp
      omega

theorem RingBuffer.capacity_pushAll (s : RingBuffer α) (ps : List α) :
    (s.pushAll ps).capacity = s.capacity := by
  induction ps using List.reverseRecOn with
  | nil => rfl
  | append_singleton t y ih => rw [RingBuffer.pushAll_append]; exact ih

theorem RingBuffer.head_pushAll (α : Type) (c : Nat) (ps : List α) :
    ((RingBuffer.new α c).pushAll ps).head = ps.length % c := by
  induction ps using List.reverseRecOn with
  | nil => simp [RingBuffer.pushAll, RingBuffer.new, Nat.zero_mod]
  | append_singleton t x ih =>
    rw [RingBuffer.pushAll_append]
    show ((_ : Nat) + 1) % _ = _
    rw [ih, RingBuffer.capacity_pushAll]
    show (t.length % c + 1) % c = (t ++ [x]).length % c
    rw [Nat.mod_add_mod]
    simp

/-- C3, functional part: after any sequence of pushes `p0..pn` into a fresh
buffer of capacity `c ≥ 1`, `toArray()` is exactly the last `min (n+1) c`
pushes in order (i.e. `p_{max(0,n+1-c)} .. p_n`), `size` is `min (n+1) c`
(hence never exceeds `c`), and the write position `head` is `(n+1) % c`. -/
theorem RingBuffer.toArray_pushAll (α : Type) (c : Nat) (hc : 0 < c) (ps : List α) :
    ((RingBuffer.new α c).pushAll ps).toArray = ps.drop (ps.length - c) := by
  induction ps using List.reverseRecOn with
  | nil => simpa [RingBuffer.pushAll] using RingBuffer.toArray_new α c
  | append_singleton t x ih =>
    rw [RingBuffer.pushAll_append]
    have hinv : ((RingBuffer.new α c).pushAll t).Inv :=
      RingBuffer.inv_pushAll _ (RingBuffer.inv_new α c hc) t
    rw [RingBuffer.toArray_push _ hinv x]
    have hsize := RingBuffer.size_pushAll α c t
    rw [RingBuffer.size] at hsize
    have hcap := RingBuffer.capacity_pushAll (RingBuffer.new α c) t
    show (if ((RingBuffer.new α c).pushAll t).count < _ then _ else _) = _
    rw [hsize, hcap]
    show (if _ then _ ++ [x] else _) = _
    rcases Nat.lt_or_ge t.length c with hl | hl
    · rw [if_pos (by show min t.length c < c; omega), ih]
      have h1 : t.length - c = 0 := by omega
      have h2 : (t ++ [x]).length - c = 0 := by simp; omega
      rw [h1, h2, List.drop_zero, List.drop_zero]
    · rw [if_neg (by show ¬ min t.length c < c; omega), ih, List.tail_drop]
      have h1 : (t ++ [x]).length - c = t.length - c + 1 := by simp; omega
      rw [h1, List.drop_append_of_le_length (by omega)]

-- ── Base ingestor (src/remote/ingestors/base-ingestor.js) ───────────────

/-- Record `IngestedEvent` from `src/remote/ingestors/types.ts`; the arbitrary
external payload is a type parameter `α`. -/
structure IngestedEvent (α : Type) where
  id : Nat
  receivedAt : String
  source : String
  eventType : String
  data : α
deriving Repr, DecidableEq

/-- Lifecycle states of an ingestor. -/
inductive IngestorState where
  | starting | connected | reconnecting | stopped | error
deriving Repr, DecidableEq

/-- Constant `DEFAULT_BUFFER_SIZE` from `src/remote/ingestors/types.ts`. -/
def DEFAULT_BUFFER_SIZE : Nat := 200

/-- Mutable state of `BaseIngestor` (the `EventEmitter` machinery carries no
state the spec claims depend on and is omitted). -/
structure BaseIngestor (α : Type) where
  connectionAlias : String
  ingestorType : String
  secrets : List (String × String)
  state : IngestorState
  buffer : RingBuffer (IngestedEvent α)
  totalEventsReceived : Nat
  lastEventAt : Option String

/-- The `BaseIngestor` constructor. -/
def BaseIngestor.new (α : Type) (connectionAlias ingestorType : String)
    (secrets : List (String × String)) (bufferSize : Nat := DEFAULT_BUFFER_SIZE) :
    BaseIngestor α :=
  { connectionAlias := connectionAlias
    ingestorType := ingestorType
    secrets := secrets
    state := .stopped
    buffer := RingBuffer.new _ bufferSize
    totalEventsReceived := 0
    lastEventAt := none }

/-- Method `pushEvent(eventType, data)`: the event id is the current value of the
`totalEventsReceived` counter (post-incremented); `receivedAt` is the wall
clock reading `new Date().toISOString()`, passed in as an argument. -/
def BaseIngestor.pushEvent (ing : BaseIngestor α) (eventType : String) (data : α)
    (receivedAt : String) : BaseIngestor α :=
  let event : IngestedEvent α :=
    { id := ing.totalEventsReceived
      receivedAt := receivedAt
      source := ing.connectionAlias
      eventType := eventType
      data := data }
  { ing with
    totalEventsReceived := ing.totalEventsReceived + 1
    buffer := ing.buffer.push event
    lastEventAt := some event.receivedAt }

/-- The numeric-`id` projection `since` uses on `IngestedEvent` values (the
`typeof id === 'number'` guard always passes). -/
def eventId (e : IngestedEvent α) : Option Int :=
  some (e.id : Int)

/-- Method `getEvents(afterId = -1)`. -/
def BaseIngestor.getEvents (ing : BaseIngestor α) (afterId : Int) :
    List (IngestedEvent α) :=
  if afterId < 0 then ing.buffer.toArray
  else ing.buffer.since eventId afterId

-- ── Interleavings of pushEvent / ring.clear (claims C4, C5) ─────────────

/-- An externally observable operation on one ingestor: a `pushEvent` call
(with the payload and the wall-clock timestamp it observed) or a
`ring.clear()` call. -/
inductive IngestorOp (α : Type) where
  | push (eventType : String) (data : α) (receivedAt : String)
  | clear

/-- Apply one operation. -/
def stepOp (ing : BaseIngestor α) : IngestorOp α → BaseIngestor α
  | .push t d r => ing.pushEvent t d r
  | .clear => { ing with buffer := ing.buffer.clear }

/-- Run a sequence of operations. -/
def runOps (ing : BaseIngestor α) (ops : List (IngestorOp α)) : BaseIngestor α :=
  ops.foldl stepOp ing

/-- The number of `pushEvent` calls in a sequence of operations. -/
def pushCount : List (IngestorOp α) → Nat
  | [] => 0
  | .push _ _ _ :: rest => pushCount rest + 1
  | .clear :: rest => pushCount rest

/-- The ids assigned by the successive `pushEvent` calls of an operation
sequence, in call order. -/
def assignedIds (ing : BaseIngestor α) : List (IngestorOp α) → List Nat
  | [] => []
  | op :: rest =>
    match op with
    | .push _ _ _ => ing.totalEventsReceived :: assignedIds (stepOp ing op) rest
    | .clear => assignedIds (stepOp ing op) rest

theorem totalEvents_runOps (ing : BaseIngestor α) (ops : List (IngestorOp α)) :
    (runOps ing ops).totalEventsReceived = ing.totalEventsReceived + pushCount ops := by
  induction ops generalizing ing with
  | nil => rfl
  | cons op rest ih =>
    cases op with
    | push t d r =>
      show (runOps _ rest).totalEventsReceived = _
      rw [ih]
      show (ing.pushEvent t d r).totalEventsReceived + _ = _
      simp [BaseIngestor.pushEvent, pushCount]
      omega
    | clear =>
      show (runOps _ rest).totalEventsReceived = _
      rw [ih]
      rfl

theorem assignedIds_eq_range' (ing : BaseIngestor α) (ops : List (IngestorOp α)) :
    assignedIds ing ops = List.range' ing.totalEventsReceived (pushCount ops) := by
  induction ops generalizing ing with
  | nil => rfl
  | cons op rest ih =>
    cases op with
    | push t d r =>
      show ing.totalEventsReceived :: assignedIds _ rest = _
      rw [ih]
      show _ :: List.range' (ing.pushEvent t d r).totalEventsReceived _ = _
      show _ :: List.range' (ing.totalEventsReceived + 1) _ = _
      rw [pushCount, List.range'_succ]
    | clear =>
      show assignedIds _ rest = _
      rw [ih]
      rfl

theorem RingBuffer.toArrayAux_clear (s : RingBuffer α) :
    s.clear.toArrayAux = [] := by
  simp [RingBuffer.toArrayAux, RingBuffer.clear]

theorem RingBuffer.toArray_clear (s : RingBuffer α) :
    s.clear.toArray = [] := by
  rw [RingBuffer.toArray_eq_filterMap_aux, RingBuffer.toArrayAux_clear]
  rfl

theorem RingBuffer.inv_clear (s : RingBuffer α) (h : s.Inv) : s.clear.Inv := by
  obtain ⟨hc, _, _, _, _⟩ := h
  refine ⟨hc, by simp [RingBuffer.clear], by simpa [RingBuffer.clear] using hc,
    by simp [RingBuffer.clear], ?_⟩
  intro o ho
  rw [RingBuffer.toArrayAux_clear] at ho
  simp at ho

-- ── Ingestor-level invariant: buffered ids ascending and below the counter

/-- Invariant of every reachable ingestor state: the ring-buffer structural
invariant holds, buffered event ids are strictly ascending oldest-first, and
every buffered id is below the `totalEventsReceived` counter (the next id to
be assigned). -/
def IngInv (ing : BaseIngestor α) : Prop :=
  ing.buffer.Inv ∧
    List.Pairwise (fun a b => a.id < b.id) ing.buffer.toArray ∧
    ∀ e ∈ ing.buffer.toArray, e.id < ing.totalEventsReceived

theorem ingInv_new (α : Type) (ca ty : String) (secrets : List (String × String))
    (cap : Nat) (hcap : 0 < cap) : IngInv (BaseIngestor.new α ca ty secrets cap) := by
  refine ⟨RingBuffer.inv_new _ cap hcap, ?_, ?_⟩ <;>
    simp [BaseIngestor.new, RingBuffer.toArray_new]

theorem ingInv_pushEvent (ing : BaseIngestor α) (h : IngInv ing)
    (t : String) (d : α) (r : String) : IngInv (ing.pushEvent t d r) := by
  obtain ⟨hb, hpw, hlt⟩ := h
  have harr := RingBuffer.toArray_push ing.buffer hb
    { id := ing.totalEventsReceived, receivedAt := r, source := ing.connectionAlias
      eventType := t, data := d }
  refine ⟨RingBuffer.inv_push ing.buffer hb _, ?_, ?_⟩
  · show List.Pairwise _ (ing.buffer.push _).toArray
    rw [harr]
    split
    · rw [List.pairwise_append]
      refine ⟨hpw, by simp, ?_⟩
      intro a ha b hb'
      simp at hb'
      rw [hb']
      exact hlt a ha
    · rw [List.pairwise_append]
      refine ⟨hpw.sublist (List.tail_sublist _), by simp, ?_⟩
      intro a ha b hb'
      simp at hb'
      rw [hb']
      exact hlt a (List.mem_of_mem_tail ha)
  · show ∀ e ∈ (ing.buffer.push _).toArray, e.id < ing.totalEventsReceived + 1
    rw [harr]
    intro e he
    split at he <;> rcases List.mem_append.mp he with h1 | h1
    · exact Nat.lt_succ_of_lt (hlt e h1)
    · simp at h1; simp [h1]
    · exact Nat.lt_succ_of_lt (hlt e (List.mem_of_mem_tail h1))
    · simp at h1; simp [h1]

theorem ingInv_step (ing : BaseIngestor α) (h : IngInv ing) (op : IngestorOp α) :
    IngInv (stepOp ing op) := by
  cases op with
  | push t d r => exact ingInv_pushEvent ing h t d r
  | clear =>
    obtain ⟨hb, _, _⟩ := h
    refine ⟨RingBuffer.inv_clear _ hb, ?_, ?_⟩ <;>
      simp [stepOp, RingBuffer.toArray_clear]

theorem ingInv_runOps (ing : BaseIngestor α) (h : IngInv ing)
    (ops : List (IngestorOp α)) : IngInv (runOps ing ops) := by
  induction ops generalizing ing with
  | nil => exact h
  | cons op rest ih => exact ih _ (ingInv_step ing h op)

-- ── Claim C3 ────────────────────────────────────────────────────────────

/-- C3: for every capacity `c ≥ 1` and every sequence of pushes `p0..pn`
into a fresh `RingBuffer` of capacity `c`, `toArray()` returns exactly
`p_{max(0,n+1-c)} .. p_n` in push order (oldest first), `size` equals
`min (n+1) c` (so it never exceeds `c`), and the write position advances
modulo `c` (on a push at capacity the oldest element is overwritten). -/
theorem ringBuffer_push_toArray_size_spec (α : Type) (c : Nat) (hc : 1 ≤ c)
    (ps : List α) :
    ((RingBuffer.new α c).pushAll ps).toArray = ps.drop (ps.length - c) ∧
    ((RingBuffer.new α c).pushAll ps).size = min ps.length c ∧
    ((RingBuffer.new α c).pushAll ps).head = ps.length % c :=
  ⟨RingBuffer.toArray_pushAll α c hc ps, RingBuffer.size_pushAll α c ps,
    RingBuffer.head_pushAll α c ps⟩

/-- Witness for C3 at capacity 2 with three pushes. -/
theorem ringBuffer_push_toArray_size_spec_witness :
    1 ≤ 2 ∧
      (((RingBuffer.new Nat 2).pushAll [10, 11, 12]).toArray =
          [10, 11, 12].drop ([10, 11, 12].length - 2) ∧
        ((RingBuffer.new Nat 2).pushAll [10, 11, 12]).size = min [10, 11, 12].length 2 ∧
        ((RingBuffer.new Nat 2).pushAll [10, 11, 12]).head = [10, 11, 12].length % 2) :=
  ⟨by decide, ringBuffer_push_toArray_size_spec Nat 2 (by decide) [10, 11, 12]⟩

-- ── Claim C4 ────────────────────────────────────────────────────────────

/-- C4: within one ingestor, the ids assigned by `pushEvent` are strictly
increasing over the whole lifetime: after any interleaving of `pushEvent`
calls, buffer evictions (implicit in `push`) and `ring.clear()` calls, the
id the next `pushEvent` would assign (`totalEventsReceived`) is strictly
greater than every previously assigned id. -/
theorem ingestor_event_ids_strictly_increasing (α : Type) (ca ty : String)
    (secrets : List (String × String)) (cap : Nat) (ops : List (IngestorOp α)) :
    List.Chain' (· < ·) (assignedIds (BaseIngestor.new α ca ty secrets cap) ops) ∧
    (assignedIds (BaseIngestor.new α ca ty secrets cap) ops).all
      (fun i =>
        i < (runOps (BaseIngestor.new α ca ty secrets cap) ops).totalEventsReceived) := by
  constructor
  · rw [assignedIds_eq_range', List.chain'_iff_pairwise]
    exact List.pairwise_lt_range' _ _
  · rw [List.all_eq_true]
    intro i hi
    rw [assignedIds_eq_range', List.mem_range'] at hi
    obtain ⟨k, hk, hik⟩ := hi
    rw [totalEvents_runOps]
    simp only [decide_eq_true_eq]
    have h0 : (BaseIngestor.new α ca ty secrets cap).totalEventsReceived = 0 := rfl
    omega

-- ── Claim C5 ────────────────────────────────────────────────────────────

/-- C5: for every reachable ingestor state and every integer `afterId`,
`getEvents(afterId)` returns the full buffer contents (oldest first) when
`afterId < 0`, and otherwise exactly the buffered events whose id exceeds
`afterId`; in both cases the result is in strictly ascending id order. -/
theorem ingestor_getEvents_cursor_spec (α : Type) (ca ty : String)
    (secrets : List (String × String)) (cap : Nat) (hcap : 0 < cap)
    (ops : List (IngestorOp α)) (afterId : Int) :
    (runOps (BaseIngestor.new α ca ty secrets cap) ops).getEvents afterId =
      (if afterId < 0 then
        (runOps (BaseIngestor.new α ca ty secrets cap) ops).buffer.toArray
      else
        (runOps (BaseIngestor.new α ca ty secrets cap) ops).buffer.toArray.filter
          (fun e => decide ((e.id : Int) > afterId))) ∧
    List.Pairwise (fun a b => a.id < b.id)
      ((runOps (BaseIngestor.new α ca ty secrets cap) ops).getEvents afterId) := by
  have hinv := ingInv_runOps _ (ingInv_new α ca ty secrets cap hcap) ops
  obtain ⟨_, hpw, _⟩ := hinv
  constructor
  · simp [BaseIngestor.getEvents, RingBuffer.since, eventId]
  · rw [BaseIngestor.getEvents]
    split
    · exact hpw
    · exact hpw.sublist (List.filter_sublist _)

/-- Witness for C5: capacity 1, a push / clear / push interleaving,
cursor 0. -/
theorem ingestor_getEvents_cursor_spec_witness :
    (0 : Nat) < 1 ∧
      ((runOps (BaseIngestor.new Nat "gh" "webhook" [] 1)
          [.push "a" 5 "t1", .clear, .push "b" 6 "t2"]).getEvents 0 =
        (if (0 : Int) < 0 then
          (runOps (BaseIngestor.new Nat "gh" "webhook" [] 1)
            [.push "a" 5 "t1", .clear, .push "b" 6 "t2"]).buffer.toArray
        else
          (runOps (BaseIngestor.new Nat "gh" "webhook" [] 1)
            [.push "a" 5 "t1", .clear, .push "b" 6 "t2"]).buffer.toArray.filter
            (fun e => decide ((e.id : Int) > 0))) ∧
      List.Pairwise (fun a b => a.id < b.id)
        ((runOps (BaseIngestor.new Nat "gh" "webhook" [] 1)
          [.push "a" 5 "t1", .clear, .push "b" 6 "t2"]).getEvents 0)) :=
  ⟨by decide,
    ingestor_getEvents_cursor_spec Nat "gh" "webhook" [] 1 (by decide)
      [.push "a" 5 "t1", .clear, .push "b" 6 "t2"] 0⟩

-- ── Stripe signature verification (webhook/stripe-types.ts) ─────────────

/-- A JS number as produced by `Number()` on a numeric string, NaN
excluded (it is `none` in `jsNumber` below): the infinities, or an exact
scaled decimal `num * 10 ^ exp` — every finite value the string numeric
literal grammar denotes is of this form.  (The model keeps the exact
denoted value; the IEEE-754 rounding of literals carrying more precision
than a double is outside the model.) -/
inductive JsNum where
  | posInf : JsNum
  | negInf : JsNum
  | finite (num : Int) (exp : Int) : JsNum
deriving Repr, DecidableEq

/-- Value of a hex digit, `none` for a non-hex character. -/
def hexDigitVal (c : Char) : Option Nat :=
  if '0' ≤ c ∧ c ≤ '9' then some (c.toNat - '0'.toNat)
  else if 'a' ≤ c ∧ c ≤ 'f' then some (c.toNat - 'a'.toNat + 10)
  else if 'A' ≤ c ∧ c ≤ 'F' then some (c.toNat - 'A'.toNat + 10)
  else none

def decDigitsToNat (l : List Char) : Nat :=
  l.foldl (fun a c => a * 10 + (c.toNat - '0'.toNat)) 0

/-- The `ExponentPart?` tail of a string decimal literal: `[]` denotes
exponent 0, `e`/`E` then an optional sign and a non-empty digit run
consuming the rest of the string; anything else is NaN. -/
def parseExpPart : List Char → Option Int
  | [] => some 0
  | c :: rest =>
    if c = 'e' ∨ c = 'E' then
      let (neg, r) : Bool × List Char :=
        match rest with
        | '+' :: r' => (false, r')
        | '-' :: r' => (true, r')
        | r' => (false, r')
      let (ds, r2) := r.span (·.isDigit)
      if ds.isEmpty || !r2.isEmpty then none
      else some (if neg then -(decDigitsToNat ds : Int) else (decDigitsToNat ds : Int))
    else none

/-- ECMA `StrUnsignedDecimalLiteral` without the `Infinity` production:
`digits [. digits?] [exp]` or `. digits [exp]`, returned as
(significand digits, decimal exponent). -/
def parseStrUnsignedDecimal (l : List Char) : Option (Nat × Int) :=
  let (intDigits, r1) := l.span (·.isDigit)
  match r1 with
  | '.' :: r2 =>
    let (fracDigits, r3) := r2.span (·.isDigit)
    if intDigits.isEmpty && fracDigits.isEmpty then none
    else
      match parseExpPart r3 with
      | none => none
      | some ex => some (decDigitsToNat (intDigits ++ fracDigits),
          ex - fracDigits.length)
  | _ =>
    if intDigits.isEmpty then none
    else
      match parseExpPart r1 with
      | none => none
      | some ex => some (decDigitsToNat intDigits, ex)

def radixDigitVal (radix : Nat) (c : Char) : Option Nat :=
  match hexDigitVal c with
  | some v => if v < radix then some v else none
  | none => none

/-- ECMA `NonDecimalIntegerLiteral` digit run after the `0x`/`0o`/`0b`
marker (no sign allowed, must be non-empty and consume the string). -/
def parseRadixDigits (radix : Nat) (l : List Char) : Option JsNum :=
  if l.isEmpty then none
  else
    match l.mapM (radixDigitVal radix) with
    | none => none
    | some ds => some (.finite ((ds.foldl (fun a d => a * radix + d) 0 : Nat) : Int) 0)

/-- ECMA `StrDecimalLiteral`: optional sign, then `Infinity` or an unsigned
decimal literal. -/
def parseSignedDecimal (l : List Char) : Option JsNum :=
  let (neg, l') : Bool × List Char :=
    match l with
    | '+' :: r => (false, r)
    | '-' :: r => (true, r)
    | r => (false, r)
  if l' = "Infinity".toList then some (if neg then JsNum.negInf else JsNum.posInf)
  else
    match parseStrUnsignedDecimal l' with
    | none => none
    | some (m, ex) =>
      some (.finite (if neg then -(m : Int) else (m : Int)) ex)

/-- Model of JS `Number(v)` applied to the already-trimmed component values
of a Stripe-Signature header: the ECMA string numeric literal grammar —
`Number("") = 0`, `Infinity` with optional sign, sign-less hex/octal/binary
integer literals, and optional-sign decimal literals with fraction and
exponent.  `none` is `NaN`, the only case the source distinguishes. -/
def jsNumber (s : String) : Option JsNum :=
  match s.toList with
  | [] => some (.finite 0 0)
  | '0' :: c :: rest =>
    if c = 'x' ∨ c = 'X' then parseRadixDigits 16 rest
    else if c = 'o' ∨ c = 'O' then parseRadixDigits 8 rest
    else if c = 'b' ∨ c = 'B' then parseRadixDigits 2 rest
    else parseSignedDecimal ('0' :: c :: rest)
  | l => parseSignedDecimal l

/-- The replay-window comparison `Math.abs(now - timestamp) > tolerance`,
computed exactly over the scaled-decimal timestamp (`now` and `tolerance`
are integers; an infinite timestamp always exceeds the window). -/
def jsNumAbsSubGt (now : Int) (t : JsNum) (tol : Int) : Bool :=
  match t with
  | .posInf => true
  | .negInf => true
  | .finite n e =>
    if 0 ≤ e then decide (|now - n * 10 ^ e.toNat| > tol)
    else decide (|now * 10 ^ (-e).toNat - n| > tol * 10 ^ (-e).toNat)

def natDigitsAux : Nat → Nat → List Char
  | 0, _ => []
  | _ + 1, 0 => []
  | fuel + 1, m => natDigitsAux fuel (m / 10) ++ [Nat.digitChar (m % 10)]

/-- Decimal digits of a positive natural, most significant first (`[]` for
0; callers handle 0 separately). -/
def natDigits (m : Nat) : List Char :=
  natDigitsAux (m + 1) m

def stripTrailingZeros : Nat → Nat → Int → Nat × Int
  | 0, m, e => (m, e)
  | fuel + 1, m, e =>
    if m ≠ 0 ∧ m % 10 = 0 then stripTrailingZeros fuel (m / 10) (e + 1)
    else (m, e)

/-- Render the positive scaled decimal `m * 10 ^ e` the way JS
`Number::toString` does (ECMA 6.1.6.1.20): fixed notation while the
decimal-point position `n` is in `(-6, 21]`, exponential notation
(`d.ddde±k`) outside. -/
def renderDecimal (m : Nat) (e : Int) : String :=
  let (m', e') := stripTrailingZeros m m e
  let s := natDigits m'
  let k : Int := s.length
  let n : Int := e' + k
  if 1 ≤ n ∧ n ≤ 21 then
    if k ≤ n then String.mk (s ++ List.replicate (n - k).toNat '0')
    else String.mk (s.take n.toNat ++ '.' :: s.drop n.toNat)
  else if -6 < n ∧ n ≤ 0 then
    String.mk ('0' :: '.' :: List.replicate (-n).toNat '0' ++ s)
  else
    String.mk (s.take 1 ++
      (if s.length > 1 then '.' :: s.drop 1 else []) ++
      'e' :: (if n - 1 < 0 then '-' else '+') :: natDigits (n - 1).natAbs)

/-- Model of the JS number-to-string conversion used by the template
literal in the signed payload. -/
def jsNumToString : JsNum → String
  | .posInf => "Infinity"
  | .negInf => "-Infinity"
  | .finite num e =>
    if num = 0 then "0"
    else if num < 0 then "-" ++ renderDecimal num.natAbs e
    else renderDecimal num.natAbs e

/-- The per-part key/value extraction of `parseStripeSignatureHeader`:
`const [key, value] = part.split('=', 2); if (!key || !value) continue;`
followed by trimming.  `none` means the part is skipped. -/
def stripeKeyValue (part : String) : Option (String × String) :=
  let kv := jsSplit '=' part
  match kv[1]? with
  | none => none
  | some value =>
    if (kv.headD "").toList.isEmpty || value.toList.isEmpty then none
    else some (jsTrim (kv.headD ""), jsTrim value)

/-- Parsed components of a Stripe-Signature header. -/
structure StripeSignatureComponents where
  timestamp : JsNum
  signatures : List String
deriving Repr, DecidableEq

/-- The `for (const part of parts)` loop of `parseStripeSignatureHeader`,
threading the `timestamp` and `signatures` accumulators; `none` is the
early `return null` on a non-numeric `t` value. -/
def parseStripeLoop : List String → Option JsNum → List String →
    Option (Option JsNum × List String)
  | [], ts, sigs => some (ts, sigs)
  | part :: rest, ts, sigs =>
    match stripeKeyValue part with
    | none => parseStripeLoop rest ts sigs
    | some (trimmedKey, trimmedValue) =>
      if trimmedKey = "t" then
        match jsNumber trimmedValue with
        | none => none
        | some n => parseStripeLoop rest (some n) sigs
      else if trimmedKey = "v1" then parseStripeLoop rest ts (sigs ++ [trimmedValue])
      else parseStripeLoop rest ts sigs

/-- Function `parseStripeSignatureHeader(header)`. -/
def parseStripeSignatureHeader (header : String) :
    Option StripeSignatureComponents :=
  match parseStripeLoop (jsSplit ',' header) none [] with
  | none => none
  | some (ts, sigs) =>
    match ts with
    | none => none
    | some t => if sigs.isEmpty then none else some ⟨t, sigs⟩

/-- Model of Node `Buffer.from(s, 'hex')`: bytes are decoded two hex digits
at a time, and decoding stops at the first invalid character or incomplete
trailing pair (Node truncates rather than throwing, so the source's
`try/catch` around it is unreachable). -/
def jsHexDecodeAux : List Char → List Nat
  | c1 :: c2 :: rest =>
    match hexDigitVal c1, hexDigitVal c2 with
    | some a, some b => (16 * a + b) :: jsHexDecodeAux rest
    | _, _ => []
  | _ => []

def jsHexDecode (s : String) : List Nat :=
  jsHexDecodeAux s.toList

/-- Result record of `verifyStripeSignature`. -/
structure StripeVerifyResult where
  valid : Bool
  reason : Option String
deriving Repr, DecidableEq

/-- The `for (const sig of signatures)` loop: accept if any `v1` signature
hex-decodes to a byte string of the expected length equal (timing-safely)
to the expected digest. -/
def checkAnySignature (expectedBuf : List Nat) : List String → Bool
  | [] => false
  | sig :: rest =>
    let sigBuf := jsHexDecode sig
    if sigBuf.length = expectedBuf.length ∧ sigBuf = expectedBuf then true
    else checkAnySignature expectedBuf rest

/-- Constant `DEFAULT_TIMESTAMP_TOLERANCE` (300 seconds). -/
def DEFAULT_TIMESTAMP_TOLERANCE : Int := 300

/-- Function `verifyStripeSignature(rawBody, signatureHeader, secret, tolerance)`.
`hmacSha256Hex secret payload` stands for the external primitive
`crypto.createHmac('sha256', secret).update(payload).digest('hex')`, and
`now` for `Math.floor(Date.now() / 1000)`. -/
def verifyStripeSignature (hmacSha256Hex : String → String → String) (now : Int)
    (rawBody : String) (signatureHeader : String) (secret : String)
    (tolerance : Int := DEFAULT_TIMESTAMP_TOLERANCE) : StripeVerifyResult :=
  match parseStripeSignatureHeader signatureHeader with
  | none => ⟨false, some "Malformed Stripe-Signature header"⟩
  | some parsed =>
    let signedPayload := jsNumToString parsed.timestamp ++ "." ++ rawBody
    let expectedSig := hmacSha256Hex secret signedPayload
    let expectedBuf := jsHexDecode expectedSig
    let sigResult : StripeVerifyResult :=
      if checkAnySignature expectedBuf parsed.signatures then ⟨true, none⟩
      else ⟨false, some "Signature verification failed"⟩
    if tolerance > 0 then
      if jsNumAbsSubGt now parsed.timestamp tolerance then
        ⟨false, some "Timestamp outside tolerance window"⟩
      else sigResult
    else sigResult

-- ── Claim C2: the header components as the claim's wording reads them ───

/-- The (trimmed) values of the `t=` components of a header, read off the
split parts the way the claim's wording refers to them.  Used to compare
the claim's "no numeric `t=` component" condition against the parser. -/
def stripeTValues (parts : List String) : List String :=
  parts.filterMap (fun p =>
    match stripeKeyValue p with
    | some (k, v) => if k = "t" then some v else none
    | none => none)

/-- The (trimmed) values of the `v1=` components of a header. -/
def stripeV1Values (parts : List String) : List String :=
  parts.filterMap (fun p =>
    match stripeKeyValue p with
    | some (k, v) => if k = "v1" then some v else none
    | none => none)

theorem stripeTValues_cons (p : String) (rest : List String) :
    stripeTValues (p :: rest) =
      (match stripeKeyValue p with
       | some (k, v) => if k = "t" then v :: stripeTValues rest else stripeTValues rest
       | none => stripeTValues rest) := by
  rw [stripeTValues, List.filterMap_cons]
  cases stripeKeyValue p with
  | none => rfl
  | some kv =>
    obtain ⟨k, v⟩ := kv
    by_cases hk : k = "t" <;> simp [hk, stripeTValues]

theorem stripeV1Values_cons (p : String) (rest : List String) :
    stripeV1Values (p :: rest) =
      (match stripeKeyValue p with
       | some (k, v) => if k = "v1" then v :: stripeV1Values rest else stripeV1Values rest
       | none => stripeV1Values rest) := by
  rw [stripeV1Values, List.filterMap_cons]
  cases stripeKeyValue p with
  | none => rfl
  | some kv =>
    obtain ⟨k, v⟩ := kv
    by_cases hk : k = "v1" <;> simp [hk, stripeV1Values]

theorem parseStripeLoop_eq_none_iff (l : List String) (ts : Option JsNum)
    (sigs : List String) :
    parseStripeLoop l ts sigs = none ↔
      ∃ v ∈ stripeTValues l, jsNumber v = none := by
  induction l generalizing ts sigs with
  | nil => simp [parseStripeLoop, stripeTValues]
  | cons p rest ih =>
    rw [parseStripeLoop, stripeTValues_cons]
    cases hkv : stripeKeyValue p with
    | none => exact ih ts sigs
    | some kv =>
      obtain ⟨k, v⟩ := kv
      by_cases hk : k = "t"
      · subst hk
        simp only [reduceIte]
        cases hnum : jsNumber v with
        | none =>
          constructor
          · intro _
            exact ⟨v, by simp, hnum⟩
          · intro _
            rfl
        | some n =>
          show parseStripeLoop rest (some n) sigs = none ↔ _
          rw [ih (some n) sigs]
          constructor
          · rintro ⟨w, hw, hwn⟩
            exact ⟨w, by simp [hw], hwn⟩
          · rintro ⟨w, hw, hwn⟩
            simp at hw
            rcases hw with hw | hw
            · rw [hw] at hwn; rw [hwn] at hnum; cases hnum
            · exact ⟨w, hw, hwn⟩
      · by_cases hk1 : k = "v1"
        · subst hk1
          simp only [reduceIte]
          exact ih ts (sigs ++ [v])
        · simp only [if_neg hk, if_neg hk1]
          exact ih ts sigs

theorem parseStripeLoop_eq_some (l : List String) (ts : Option JsNum)
    (sigs : List String) (ts' : Option JsNum) (sigs' : List String)
    (h : parseStripeLoop l ts sigs = some (ts', sigs')) :
    sigs' = sigs ++ stripeV1Values l ∧
      (ts' = none ↔ (ts = none ∧ stripeTValues l = [])) := by
  induction l generalizing ts sigs with
  | nil =>
    rw [parseStripeLoop] at h
    injection h with h'
    injection h' with h1 h2
    subst h1; subst h2
    simp [stripeTValues, stripeV1Values]
  | cons p rest ih =>
    rw [parseStripeLoop] at h
    rw [stripeTValues_cons, stripeV1Values_cons]
    cases hkv : stripeKeyValue p with
    | none =>
      rw [hkv] at h
      exact ih ts sigs h
    | some kv =>
      obtain ⟨k, v⟩ := kv
      rw [hkv] at h
      by_cases hk : k = "t"
      · subst hk
        simp only [reduceIte] at h ⊢
        cases hnum : jsNumber v with
        | none =>
          rw [hnum] at h
          simp at h
        | some n =>
          rw [hnum] at h
          have hih := ih (some n) sigs h
          refine ⟨hih.1, ?_⟩
          rw [hih.2]
          simp
      · by_cases hk1 : k = "v1"
        · subst hk1
          simp only [reduceIte] at h ⊢
          have hih := ih ts (sigs ++ [v]) h
          refine ⟨?_, ?_⟩
          · rw [hih.1]
            simp
          · rw [hih.2]
            simp
        · simp only [if_neg hk, if_neg hk1] at h ⊢
          exact ih ts sigs h

/-- The parser rejects a header exactly when it has no `t=` component, some
`t=` component has a non-numeric value, or it has no `v1=` component. -/
theorem parseStripeSignatureHeader_eq_none_iff (header : String) :
    parseStripeSignatureHeader header = none ↔
      (stripeTValues (jsSplit ',' header) = [] ∨
        (∃ v ∈ stripeTValues (jsSplit ',' header), jsNumber v = none) ∨
        stripeV1Values (jsSplit ',' header) = []) := by
  rw [parseStripeSignatureHeader]
  cases hloop : parseStripeLoop (jsSplit ',' header) none [] with
  | none =>
    rw [parseStripeLoop_eq_none_iff] at hloop
    simp [hloop]
  | some r =>
    obtain ⟨ts', sigs'⟩ := r
    have hsome := parseStripeLoop_eq_some _ none [] ts' sigs' hloop
    have hnone : ¬ ∃ v ∈ stripeTValues (jsSplit ',' header), jsNumber v = none := by
      intro hex
      rw [← parseStripeLoop_eq_none_iff (jsSplit ',' header) none []] at hex
      rw [hloop] at hex
      cases hex
    cases ts' with
    | none =>
      have := (hsome.2.mp rfl).2
      simp [this, hnone]
    | some t =>
      have hts : stripeTValues (jsSplit ',' header) ≠ [] := by
        intro hempty
        have := hsome.2.mpr ⟨rfl, hempty⟩
        cases this
      show (if sigs'.isEmpty then none
          else some (StripeSignatureComponents.mk t sigs')) = none ↔ _
      by_cases hsig : sigs'.isEmpty
      · rw [if_pos hsig]
        rw [List.isEmpty_iff] at hsig
        rw [hsig] at hsome
        have : stripeV1Values (jsSplit ',' header) = [] := by
          have h1 := hsome.1
          simpa using h1.symm
        simp [this, hnone, hts]
      · rw [if_neg hsig]
        rw [List.isEmpty_iff] at hsig
        have hv1 : stripeV1Values (jsSplit ',' header) ≠ [] := by
          intro hempty
          rw [hsome.1, hempty] at hsig
          simp at hsig
        simp [hnone, hts, hv1]

/-- C2 counterexample: the header `t=x,t=1,v1=aa` does have a numeric `t=`
component (`t=1`) and a `v1=` component, so by the claim the result should
not be the malformed-header rejection (with tolerance 0 and an HMAC whose
digest hex-decodes like `aa`, the claim predicts `valid = true`); the code
instead returns `Malformed Stripe-Signature header`, because the parser
aborts at the first non-numeric `t=` component. -/
theorem verifyStripeSignature_claim_counterexample :
    verifyStripeSignature (fun _ _ => "aa") 0 "body" "t=x,t=1,v1=aa" "sec" 0 =
      ⟨false, some "Malformed Stripe-Signature header"⟩ ∧
    (stripeTValues (jsSplit ',' "t=x,t=1,v1=aa")).any
      (fun v => (jsNumber v).isSome) = true ∧
    (stripeV1Values (jsSplit ',' "t=x,t=1,v1=aa")).isEmpty = false := by
  decide

theorem checkAnySignature_iff (expectedBuf : List Nat) (sigs : List String) :
    checkAnySignature expectedBuf sigs = true ↔
      ∃ s ∈ sigs, jsHexDecode s = expectedBuf := by
  induction sigs with
  | nil => simp [checkAnySignature]
  | cons s rest ih =>
    rw [checkAnySignature]
    by_cases hs : jsHexDecode s = expectedBuf
    · rw [if_pos ⟨by rw [hs], hs⟩]
      simp [hs]
    · rw [if_neg (fun hq => hs hq.2)]
      rw [ih]
      simp [hs]

/-- C2 (amended): `verifyStripeSignature` returns the malformed-header
rejection exactly when the header has no `t=` component, some `t=`
component has a non-numeric value (JS `Number` yields NaN), or no `v1=`
component; the outside-tolerance rejection exactly when the header parses,
the tolerance is positive and `Math.abs(now - timestamp) > tolerance`
holds (computed exactly over the parsed timestamp); `valid = true` exactly
when the header parses, the timestamp check passes (or is disabled), and
some `v1` signature hex-decodes to the HMAC-SHA256 digest of
`"timestamp.rawBody"`; and tolerance 0 disables the timestamp check
entirely (the result does not depend on the clock). -/
theorem verifyStripeSignature_characterization (hmac : String → String → String)
    (now : Int) (rawBody header secret : String) (tolerance : Int) :
    (verifyStripeSignature hmac now rawBody header secret tolerance =
        ⟨false, some "Malformed Stripe-Signature header"⟩ ↔
      (stripeTValues (jsSplit ',' header) = [] ∨
        (∃ v ∈ stripeTValues (jsSplit ',' header), jsNumber v = none) ∨
        stripeV1Values (jsSplit ',' header) = [])) ∧
    (verifyStripeSignature hmac now rawBody header secret tolerance =
        ⟨false, some "Timestamp outside tolerance window"⟩ ↔
      ∃ p, parseStripeSignatureHeader header = some p ∧
        0 < tolerance ∧ jsNumAbsSubGt now p.timestamp tolerance = true) ∧
    ((verifyStripeSignature hmac now rawBody header secret tolerance).valid = true ↔
      ∃ p, parseStripeSignatureHeader header = some p ∧
        (0 < tolerance → jsNumAbsSubGt now p.timestamp tolerance = false) ∧
        ∃ s ∈ p.signatures,
          jsHexDecode s =
            jsHexDecode
              (hmac secret (jsNumToString p.timestamp ++ "." ++ rawBody))) ∧
    (∀ now' : Int, verifyStripeSignature hmac now rawBody header secret 0 =
      verifyStripeSignature hmac now' rawBody header secret 0) := by
  cases hp : parseStripeSignatureHeader header with
  | none =>
    have hv : ∀ t : Int, verifyStripeSignature hmac now rawBody header secret t =
        ⟨false, some "Malformed Stripe-Signature header"⟩ := by
      intro t
      rw [verifyStripeSignature, hp]
    have hv' : ∀ t nw : Int, verifyStripeSignature hmac nw rawBody header secret t =
        ⟨false, some "Malformed Stripe-Signature header"⟩ := by
      intro t nw
      rw [verifyStripeSignature, hp]
    refine ⟨?_, ?_, ?_, ?_⟩
    · rw [hv]
      rw [← parseStripeSignatureHeader_eq_none_iff]
      simp [hp]
    · rw [hv]
      simp [hp]
    · rw [hv]
      simp [hp]
    · intro now'
      rw [hv' 0 now, hv' 0 now']
  | some p =>
    have hnotnone : ¬ (stripeTValues (jsSplit ',' header) = [] ∨
        (∃ v ∈ stripeTValues (jsSplit ',' header), jsNumber v = none) ∨
        stripeV1Values (jsSplit ',' header) = []) := by
      rw [← parseStripeSignatureHeader_eq_none_iff]
      simp [hp]
    have hv : ∀ nw t : Int, verifyStripeSignature hmac nw rawBody header secret t =
        (if t > 0 then
          if jsNumAbsSubGt nw p.timestamp t then
            ⟨false, some "Timestamp outside tolerance window"⟩
          else
            if checkAnySignature
                (jsHexDecode (hmac secret (jsNumToString p.timestamp ++ "." ++ rawBody)))
                p.signatures then ⟨true, none⟩
            else ⟨false, some "Signature verification failed"⟩
        else
          if checkAnySignature
              (jsHexDecode (hmac secret (jsNumToString p.timestamp ++ "." ++ rawBody)))
              p.signatures then ⟨true, none⟩
          else ⟨false, some "Signature verification failed"⟩) := by
      intro nw t
      rw [verifyStripeSignature, hp]
    refine ⟨?_, ?_, ?_, ?_⟩
    · rw [hv]
      constructor
      · intro habs
        exfalso
        split at habs
        · split at habs
          · simp at habs
          · split at habs <;> simp at habs
        · split at habs <;> simp at habs
      · intro habs
        exact absurd habs hnotnone
    · rw [hv]
      by_cases ht : tolerance > 0
      · by_cases habs : jsNumAbsSubGt now p.timestamp tolerance = true
        · rw [if_pos ht, if_pos habs]
          constructor
          · intro _
            exact ⟨p, rfl, ht, habs⟩
          · intro _
            rfl
        · rw [if_pos ht, if_neg habs]
          constructor
          · intro hq
            split at hq <;> simp at hq
          · rintro ⟨q, hq, _, habs'⟩
            injection hq with hq
            subst hq
            exact absurd habs' habs
      · rw [if_neg ht]
        constructor
        · intro hq
          split at hq <;> simp at hq
        · rintro ⟨q, hq, ht', _⟩
          exact absurd ht' (by omega)
    · rw [hv]
      by_cases ht : tolerance > 0
      · by_cases habs : jsNumAbsSubGt now p.timestamp tolerance = true
        · rw [if_pos ht, if_pos habs]
          constructor
          · intro hq
            simp at hq
          · rintro ⟨q, hq, hin, _⟩
            injection hq with hq
            subst hq
            rw [hin ht] at habs
            exact absurd habs (by simp)
        · rw [if_pos ht, if_neg habs]
          have habs' : jsNumAbsSubGt now p.timestamp tolerance = false := by
            revert habs
            cases jsNumAbsSubGt now p.timestamp tolerance <;> simp
          by_cases hchk : checkAnySignature
              (jsHexDecode (hmac secret (jsNumToString p.timestamp ++ "." ++ rawBody)))
              p.signatures = true
          · rw [if_pos hchk]
            constructor
            · intro _
              obtain ⟨s, hs, hdec⟩ := (checkAnySignature_iff _ _).mp hchk
              exact ⟨p, rfl, fun _ => habs', s, hs, hdec⟩
            · intro _
              rfl
          · rw [if_neg hchk]
            constructor
            · intro hq
              simp at hq
            · rintro ⟨q, hq, _, s, hs, hdec⟩
              injection hq with hq
              subst hq
              exact absurd ((checkAnySignature_iff _ _).mpr ⟨s, hs, hdec⟩) hchk
      · rw [if_neg ht]
        by_cases hchk : checkAnySignature
            (jsHexDecode (hmac secret (jsNumToString p.timestamp ++ "." ++ rawBody)))
            p.signatures = true
        · rw [if_pos hchk]
          constructor
          · intro _
            obtain ⟨s, hs, hdec⟩ := (checkAnySignature_iff _ _).mp hchk
            exact ⟨p, rfl, fun h0 => absurd h0 ht, s, hs, hdec⟩
          · intro _
            rfl
        · rw [if_neg hchk]
          constructor
          · intro hq
            simp at hq
          · rintro ⟨q, hq, _, s, hs, hdec⟩
            injection hq with hq
            subst hq
            exact absurd ((checkAnySignature_iff _ _).mpr ⟨s, hs, hdec⟩) hchk
    · intro now'
      rw [hv now 0, hv now' 0]
      rw [if_neg (by omega : ¬ (0 : Int) > 0), if_neg (by omega : ¬ (0 : Int) > 0)]

-- ── Trello signature verification (webhook/trello-types.ts) ─────────────

/-- Base64 value of a character; Node's decoder also accepts the URL-safe
alphabet.  `none` = not a base64 digit (ignored by Node's decoder). -/
def b64DigitVal (c : Char) : Option Nat :=
  if 'A' ≤ c ∧ c ≤ 'Z' then some (c.toNat - 'A'.toNat)
  else if 'a' ≤ c ∧ c ≤ 'z' then some (c.toNat - 'a'.toNat + 26)
  else if '0' ≤ c ∧ c ≤ '9' then some (c.toNat - '0'.toNat + 52)
  else if c = '+' ∨ c = '-' then some 62
  else if c = '/' ∨ c = '_' then some 63
  else none

/-- Decode a stream of 6-bit groups into bytes; a trailing partial group of
2 or 3 digits contributes 1 or 2 bytes, a single trailing digit is
dropped. -/
def b64Groups : List Nat → List Nat
  | a :: b :: c :: d :: rest =>
    (a * 4 + b / 16) :: (b % 16 * 16 + c / 4) :: (c % 4 * 64 + d) :: b64Groups rest
  | [a, b] => [a * 4 + b / 16]
  | [a, b, c] => [a * 4 + b / 16, b % 16 * 16 + c / 4]
  | _ => []

/-- Model of Node `Buffer.from(s, 'base64')`: decoding stops at the first
`=` (Node's `unbase64` loop: `if (c == '=' ...) return; // Stop decoding`),
other characters outside the base64 alphabet are skipped, and the
remaining 6-bit groups are decoded; it never throws, so the source's
`try/catch` around it is unreachable.  E.g. `SQ==QU0=` decodes to the
single byte of `I`, and a header starting with `=` decodes to no bytes. -/
def jsBase64Decode (s : String) : List Nat :=
  b64Groups ((s.toList.takeWhile (fun c => !(c = '='))).filterMap b64DigitVal)

/-- Function `verifyTrelloSignature(rawBody, signatureHeader, secret, callbackUrl)`.
`hmacSha1Base64 secret content` stands for the external primitive
`crypto.createHmac('sha1', secret).update(content).digest('base64')`. -/
def verifyTrelloSignature (hmacSha1Base64 : String → String → String)
    (rawBody signatureHeader secret callbackUrl : String) : Bool :=
  let content := rawBody ++ callbackUrl
  let computedSig := hmacSha1Base64 secret content
  let receivedBuf := jsBase64Decode signatureHeader
  let computedBuf := jsBase64Decode computedSig
  decide (receivedBuf.length = computedBuf.length ∧ receivedBuf = computedBuf)

/-- C6: `verifyTrelloSignature` returns `true` exactly when the header value
equals the base64-encoded HMAC-SHA1 of `rawBody + callbackURL`, the
comparison being made timing-safely on the decoded bytes (so in particular
any header that does not decode to bytes of the right length yields
`false`). -/
theorem verifyTrelloSignature_iff (hmacSha1Base64 : String → String → String)
    (rawBody signatureHeader secret callbackUrl : String) :
    verifyTrelloSignature hmacSha1Base64 rawBody signatureHeader secret callbackUrl =
        true ↔
      jsBase64Decode signatureHeader =
        jsBase64Decode (hmacSha1Base64 secret (rawBody ++ callbackUrl)) := by
  rw [verifyTrelloSignature]
  simp only [decide_eq_true_eq]
  constructor
  · rintro ⟨_, h⟩
    exact h
  · intro h
    exact ⟨by rw [h], h⟩

-- ── GitHub webhook ingestor (webhook/webhook-ingestor.ts) ───────────────

/-- Record `WebhookIngestorConfig` from `src/remote/ingestors/types.ts`. -/
structure WebhookIngestorConfig where
  path : String
  signatureHeader : Option String
  signatureSecret : Option String

/-- The GitHub-specific headers.  Modelled from the spec: the helpers
`extractGitHubHeaders` / `verifyGitHubSignature` live in
`webhook/github-types.ts`, which is not under `src/`; per the spec the
signature is taken from `X-Hub-Signature-256`, the event type from
`X-GitHub-Event` and the delivery id from `X-GitHub-Delivery` (Node
lower-cases incoming header names). -/
structure GitHubWebhookHeaders where
  signature : Option String
  event : String
  deliveryId : Option String

/-- Modelled from the spec: extract the GitHub headers from the raw header
map.  The concrete fallback for a missing `X-GitHub-Event` header is not in
`src/` and does not affect any claim; `"unknown"` is used. -/
def extractGitHubHeaders (headers : List (String × String)) : GitHubWebhookHeaders :=
  { signature := jsLookup headers "x-hub-signature-256"
    event := (jsLookup headers "x-github-event").getD "unknown"
    deliveryId := jsLookup headers "x-github-delivery" }

/-- Modelled from the spec: GitHub signatures are `sha256=<hex HMAC-SHA256
of the raw body>`, compared timing-safely.  `hmacSha256Hex` is the external
digest primitive. -/
def verifyGitHubSignature (hmacSha256Hex : String → String → String)
    (rawBody signature secret : String) : Bool :=
  signature == "sha256=" ++ hmacSha256Hex secret rawBody

/-- The event data pushed by the GitHub ingestor:
`{ deliveryId, event, payload }`.  The JSON payload type is a parameter. -/
structure GitHubEventData (β : Type) where
  deliveryId : Option String
  event : String
  payload : β
deriving DecidableEq

/-- State of a `GitHubWebhookIngestor`: the `BaseIngestor` state plus the
fields its constructor copies out of the webhook config (`eventFilter` is
always initialised to `[]`). -/
structure GitHubWebhookIngestor (β : Type) where
  base : BaseIngestor (GitHubEventData β)
  webhookPath : String
  signatureHeader : Option String
  signatureSecretName : Option String
  eventFilter : List String

/-- The `GitHubWebhookIngestor` constructor. -/
def GitHubWebhookIngestor.new (β : Type) (connectionAlias : String)
    (secrets : List (String × String)) (webhookConfig : WebhookIngestorConfig)
    (bufferSize : Nat := DEFAULT_BUFFER_SIZE) : GitHubWebhookIngestor β :=
  { base := BaseIngestor.new _ connectionAlias "webhook" secrets bufferSize
    webhookPath := webhookConfig.path
    signatureHeader := webhookConfig.signatureHeader
    signatureSecretName := webhookConfig.signatureSecret
    eventFilter := [] }

/-- Result record of `handleWebhook`. -/
structure HandleResult where
  accepted : Bool
  reason : Option String
deriving Repr, DecidableEq

/-- Steps 3-6 of `handleWebhook`: JSON-parse the body, apply the (always
empty) event filter, push the event. -/
def GitHubWebhookIngestor.processBody (parseJson : String → Option β)
    (receivedAt : String) (ing : GitHubWebhookIngestor β)
    (ghHeaders : GitHubWebhookHeaders) (rawBody : String) :
    HandleResult × GitHubWebhookIngestor β :=
  match parseJson rawBody with
  | none => (⟨false, some "Invalid JSON body"⟩, ing)
  | some payload =>
    let eventType := ghHeaders.event
    if !ing.eventFilter.isEmpty && !ing.eventFilter.contains eventType then
      (⟨true, some "Filtered out"⟩, ing)
    else
      (⟨true, none⟩,
        { ing with
          base := ing.base.pushEvent eventType
            ⟨ghHeaders.deliveryId, eventType, payload⟩ receivedAt })

/-- Method `handleWebhook(headers, rawBody)`.  Returns the result together with the
ingestor state after the call.  `parseJson` stands for `JSON.parse` (`none`
= exception), `hmacSha256Hex` for the HMAC primitive, and `receivedAt` for
the wall-clock reading should an event be pushed. -/
def GitHubWebhookIngestor.handleWebhook (hmacSha256Hex : String → String → String)
    (parseJson : String → Option β) (receivedAt : String)
    (ing : GitHubWebhookIngestor β) (headers : List (String × String))
    (rawBody : String) : HandleResult × GitHubWebhookIngestor β :=
  let ghHeaders := extractGitHubHeaders headers
  -- 2. signature verification, only when BOTH config fields are truthy
  if jsTruthy ing.signatureSecretName && jsTruthy ing.signatureHeader then
    match jsLookup ing.base.secrets (ing.signatureSecretName.getD "") with
    | none => (⟨false, some "Signature secret not configured"⟩, ing)
    | some secret =>
      if secret.toList.isEmpty then
        (⟨false, some "Signature secret not configured"⟩, ing)
      else
        match ghHeaders.signature with
        | none => (⟨false, some "Missing signature header"⟩, ing)
        | some signature =>
          if signature.toList.isEmpty then
            (⟨false, some "Missing signature header"⟩, ing)
          else if !verifyGitHubSignature hmacSha256Hex rawBody signature secret then
            (⟨false, some "Signature verification failed"⟩, ing)
          else
            GitHubWebhookIngestor.processBody parseJson receivedAt ing ghHeaders
              rawBody
  else
    GitHubWebhookIngestor.processBody parseJson receivedAt ing ghHeaders rawBody

-- ── Claims C1 / C7 / C10 ────────────────────────────────────────────────

/-- C1 counterexample: the config names a signature header but no signature
secret, so exactly one of the two fields is present; the claim then demands
that the request's signature be verified and the request rejected (its
signature is missing), but the code skips verification entirely and accepts
the request. -/
theorem github_webhook_verification_claim_counterexample :
    (GitHubWebhookIngestor.handleWebhook (fun _ _ => "")
        (fun s => if s = "{}" then some () else none) "2024-01-01T00:00:00.000Z"
        (GitHubWebhookIngestor.new Unit "github" [("SECRET", "v")]
          ⟨"github", some "X-Hub-Signature-256", none⟩ 4)
        [] "{}").fst = ⟨true, none⟩ ∧
    jsTruthy (GitHubWebhookIngestor.new Unit "github" [("SECRET", "v")]
        ⟨"github", some "X-Hub-Signature-256", none⟩ 4).signatureHeader = true ∧
    jsTruthy (GitHubWebhookIngestor.new Unit "github" [("SECRET", "v")]
        ⟨"github", some "X-Hub-Signature-256", none⟩ 4).signatureSecretName = false := by
  decide

/-- C1 (amended): signature verification is skipped iff at least one of the
`signatureHeader` / `signatureSecret` config fields is absent (falsy) — the
request is then processed with no signature examination at all; when both
are present the signature is verified: a missing/unresolvable secret, a
missing signature header, or a failed comparison each reject the request
with the corresponding reason, and only a successful comparison lets the
request proceed. -/
theorem github_webhook_signature_gate (β : Type)
    (hmacSha256Hex : String → String → String) (parseJson : String → Option β)
    (receivedAt : String) (ing : GitHubWebhookIngestor β)
    (headers : List (String × String)) (rawBody : String) :
    (¬ (jsTruthy ing.signatureSecretName = true ∧ jsTruthy ing.signatureHeader = true) →
      GitHubWebhookIngestor.handleWebhook hmacSha256Hex parseJson receivedAt ing
          headers rawBody =
        GitHubWebhookIngestor.processBody parseJson receivedAt ing
          (extractGitHubHeaders headers) rawBody) ∧
    (jsTruthy ing.signatureSecretName = true → jsTruthy ing.signatureHeader = true →
      (jsTruthy (jsLookup ing.base.secrets (ing.signatureSecretName.getD "")) = false →
        GitHubWebhookIngestor.handleWebhook hmacSha256Hex parseJson receivedAt ing
            headers rawBody =
          (⟨false, some "Signature secret not configured"⟩, ing)) ∧
      (∀ secret, jsLookup ing.base.secrets (ing.signatureSecretName.getD "") = some secret →
        secret.toList.isEmpty = false →
        (jsTruthy (extractGitHubHeaders headers).signature = false →
          GitHubWebhookIngestor.handleWebhook hmacSha256Hex parseJson receivedAt ing
              headers rawBody =
            (⟨false, some "Missing signature header"⟩, ing)) ∧
        (∀ sigv, (extractGitHubHeaders headers).signature = some sigv →
          sigv.toList.isEmpty = false →
          (verifyGitHubSignature hmacSha256Hex rawBody sigv secret = false →
            GitHubWebhookIngestor.handleWebhook hmacSha256Hex parseJson receivedAt ing
                headers rawBody =
              (⟨false, some "Signature verification failed"⟩, ing)) ∧
          (verifyGitHubSignature hmacSha256Hex rawBody sigv secret = true →
            GitHubWebhookIngestor.handleWebhook hmacSha256Hex parseJson receivedAt ing
                headers rawBody =
              GitHubWebhookIngestor.processBody parseJson receivedAt ing
                (extractGitHubHeaders headers) rawBody)))) := by
  constructor
  · intro h
    rw [GitHubWebhookIngestor.handleWebhook,
      if_neg (fun hq => h (Bool.and_eq_true _ _ |>.mp hq))]
  · intro h1 h2
    have hcond : (jsTruthy ing.signatureSecretName &&
        jsTruthy ing.signatureHeader) = true := by
      rw [Bool.and_eq_true]
      exact ⟨h1, h2⟩
    constructor
    · intro hfalsy
      rw [GitHubWebhookIngestor.handleWebhook, if_pos hcond]
      cases hlk : jsLookup ing.base.secrets (ing.signatureSecretName.getD "") with
      | none => rfl
      | some s =>
        have hse : s.toList.isEmpty = true := by
          rw [hlk, jsTruthy] at hfalsy
          revert hfalsy
          cases s.toList.isEmpty <;> simp
        simp only [hse, reduceIte]
    · intro secret hlk hne
      constructor
      · intro hsig
        rw [GitHubWebhookIngestor.handleWebhook, if_pos hcond, hlk]
        simp only [hne, Bool.false_eq_true, reduceIte]
        cases hs : (extractGitHubHeaders headers).signature with
        | none => rfl
        | some sv =>
          have hsv : sv.toList.isEmpty = true := by
            rw [hs, jsTruthy] at hsig
            revert hsig
            cases sv.toList.isEmpty <;> simp
          simp only [hsv, reduceIte]
      · intro sigv hs hsne
        constructor
        · intro hver
          rw [GitHubWebhookIngestor.handleWebhook, if_pos hcond, hlk]
          simp only [hne, Bool.false_eq_true, reduceIte, hs, hsne, hver,
            Bool.not_false]
        · intro hver
          rw [GitHubWebhookIngestor.handleWebhook, if_pos hcond, hlk]
          simp only [hne, Bool.false_eq_true, reduceIte, hs, hsne, hver,
            Bool.not_true]

/-- Witness for C1's amended theorem: the skip branch at a config with only
the header field set, and the missing-secret branch at a config naming a
secret that does not resolve. -/
theorem github_webhook_signature_gate_witness :
    GitHubWebhookIngestor.handleWebhook (β := Unit) (fun _ _ => "")
        (fun s => if s = "{}" then some () else none) "t0"
        (GitHubWebhookIngestor.new Unit "github" [("SECRET", "v")]
          ⟨"github", some "X-Hub-Signature-256", none⟩ 4) [] "{}" =
      GitHubWebhookIngestor.processBody (fun s => if s = "{}" then some () else none)
        "t0"
        (GitHubWebhookIngestor.new Unit "github" [("SECRET", "v")]
          ⟨"github", some "X-Hub-Signature-256", none⟩ 4)
        (extractGitHubHeaders []) "{}" ∧
    GitHubWebhookIngestor.handleWebhook (β := Unit) (fun _ _ => "")
        (fun s => if s = "{}" then some () else none) "t0"
        (GitHubWebhookIngestor.new Unit "github" []
          ⟨"github", some "X-Hub-Signature-256", some "SECRET"⟩ 4) [] "{}" =
      (⟨false, some "Signature secret not configured"⟩,
        GitHubWebhookIngestor.new Unit "github" []
          ⟨"github", some "X-Hub-Signature-256", some "SECRET"⟩ 4) :=
  ⟨(github_webhook_signature_gate Unit (fun _ _ => "")
      (fun s => if s = "{}" then some () else none) "t0"
      (GitHubWebhookIngestor.new Unit "github" [("SECRET", "v")]
        ⟨"github", some "X-Hub-Signature-256", none⟩ 4) [] "{}").1
      (by decide),
    ((github_webhook_signature_gate Unit (fun _ _ => "")
      (fun s => if s = "{}" then some () else none) "t0"
      (GitHubWebhookIngestor.new Unit "github" []
        ⟨"github", some "X-Hub-Signature-256", some "SECRET"⟩ 4) [] "{}").2
      (by decide) (by decide)).1 (by decide)⟩

/-- C7: with both `signatureHeader` and `signatureSecret` configured, if the
named secret does not appear in the ingestor's resolved secrets then every
request is rejected with `Signature secret not configured` and the ingestor
state (ring buffer, counters, lifecycle state) is unchanged — no event is
pushed. -/
theorem github_webhook_missing_secret_rejects (β : Type)
    (hmacSha256Hex : String → String → String) (parseJson : String → Option β)
    (receivedAt : String) (ing : GitHubWebhookIngestor β)
    (headers : List (String × String)) (rawBody : String)
    (h1 : jsTruthy ing.signatureSecretName = true)
    (h2 : jsTruthy ing.signatureHeader = true)
    (habsent : jsLookup ing.base.secrets (ing.signatureSecretName.getD "") = none) :
    GitHubWebhookIngestor.handleWebhook hmacSha256Hex parseJson receivedAt ing
        headers rawBody =
      (⟨false, some "Signature secret not configured"⟩, ing) := by
  rw [GitHubWebhookIngestor.handleWebhook,
    if_pos (by rw [Bool.and_eq_true]; exact ⟨h1, h2⟩), habsent]

/-- Witness for C7: a config naming secret `SECRET` with empty resolved
secrets. -/
theorem github_webhook_missing_secret_rejects_witness :
    jsTruthy (GitHubWebhookIngestor.new Unit "github" []
        ⟨"github", some "X-Hub-Signature-256", some "SECRET"⟩ 4).signatureSecretName =
      true ∧
    jsTruthy (GitHubWebhookIngestor.new Unit "github" []
        ⟨"github", some "X-Hub-Signature-256", some "SECRET"⟩ 4).signatureHeader =
      true ∧
    GitHubWebhookIngestor.handleWebhook (β := Unit) (fun _ _ => "")
        (fun s => if s = "{}" then some () else none) "t0"
        (GitHubWebhookIngestor.new Unit "github" []
          ⟨"github", some "X-Hub-Signature-256", some "SECRET"⟩ 4)
        [("x-github-event", "push")] "{}" =
      (⟨false, some "Signature secret not configured"⟩,
        GitHubWebhookIngestor.new Unit "github" []
          ⟨"github", some "X-Hub-Signature-256", some "SECRET"⟩ 4) :=
  ⟨by decide, by decide,
    github_webhook_missing_secret_rejects Unit (fun _ _ => "")
      (fun s => if s = "{}" then some () else none) "t0"
      (GitHubWebhookIngestor.new Unit "github" []
        ⟨"github", some "X-Hub-Signature-256", some "SECRET"⟩ 4)
      [("x-github-event", "push")] "{}" (by decide) (by decide) (by decide)⟩

theorem processBody_reject_preserves (parseJson : String → Option β)
    (receivedAt : String) (ing : GitHubWebhookIngestor β)
    (gh : GitHubWebhookHeaders) (rawBody : String)
    (h : (GitHubWebhookIngestor.processBody parseJson receivedAt ing gh
        rawBody).fst.accepted = false) :
    (GitHubWebhookIngestor.processBody parseJson receivedAt ing gh rawBody).snd =
      ing := by
  rw [GitHubWebhookIngestor.processBody] at h ⊢
  cases hpj : parseJson rawBody with
  | none => rfl
  | some payload =>
    rw [hpj] at h
    exfalso
    split at h
    · simp_all
    · simp only [Bool.and_eq_true] at h
      split at h <;> simp_all

/-- C10: rejection is atomic — whenever `handleWebhook` returns
`accepted = false` (missing secret, missing signature header, failed
verification, or invalid JSON body), the ingestor state (ring buffer,
`totalEventsReceived`, `lastEventAt`, lifecycle state) is exactly as
before the call. -/
theorem github_webhook_reject_atomic (β : Type)
    (hmacSha256Hex : String → String → String) (parseJson : String → Option β)
    (receivedAt : String) (ing : GitHubWebhookIngestor β)
    (headers : List (String × String)) (rawBody : String)
    (h : (GitHubWebhookIngestor.handleWebhook hmacSha256Hex parseJson receivedAt ing
        headers rawBody).fst.accepted = false) :
    (GitHubWebhookIngestor.handleWebhook hmacSha256Hex parseJson receivedAt ing
        headers rawBody).snd = ing := by
  rw [GitHubWebhookIngestor.handleWebhook] at h ⊢
  by_cases hcond : (jsTruthy ing.signatureSecretName &&
      jsTruthy ing.signatureHeader) = true
  · rw [if_pos hcond] at h ⊢
    cases hlk : jsLookup ing.base.secrets (ing.signatureSecretName.getD "") with
    | none => rfl
    | some secret =>
      rw [hlk] at h
      by_cases hse : secret.toList.isEmpty = true
      · simp only [hse, reduceIte]
      · have hse' : secret.toList.isEmpty = false := by
          revert hse; cases secret.toList.isEmpty <;> simp
        simp only [hse', Bool.false_eq_true, reduceIte] at h ⊢
        cases hs : (extractGitHubHeaders headers).signature with
        | none => rfl
        | some sigv =>
          rw [hs] at h
          by_cases hsv : sigv.toList.isEmpty = true
          · simp only [hsv, reduceIte]
          · have hsv' : sigv.toList.isEmpty = false := by
              revert hsv; cases sigv.toList.isEmpty <;> simp
            simp only [hsv', Bool.false_eq_true, reduceIte] at h ⊢
            by_cases hver : verifyGitHubSignature hmacSha256Hex rawBody sigv
                secret = true
            · have hnotver : (!verifyGitHubSignature hmacSha256Hex rawBody sigv
                  secret) = false := by rw [hver]; rfl
              simp only [hnotver, Bool.false_eq_true, reduceIte] at h ⊢
              exact processBody_reject_preserves parseJson receivedAt ing
                (extractGitHubHeaders headers) rawBody h
            · have hver' : verifyGitHubSignature hmacSha256Hex rawBody sigv
                  secret = false := by
                revert hver
                cases verifyGitHubSignature hmacSha256Hex rawBody sigv secret <;> simp
              have hnotver : (!verifyGitHubSignature hmacSha256Hex rawBody sigv
                  secret) = true := by rw [hver']; rfl
              simp only [hnotver, reduceIte]
  · rw [if_neg hcond] at h ⊢
    exact processBody_reject_preserves parseJson receivedAt ing
      (extractGitHubHeaders headers) rawBody h

/-- Witness for C10: an invalid-JSON request is rejected and the state is
returned unchanged. -/
theorem github_webhook_reject_atomic_witness :
    (GitHubWebhookIngestor.handleWebhook (β := Unit) (fun _ _ => "")
        (fun _ => none) "t0"
        (GitHubWebhookIngestor.new Unit "github" [] ⟨"github", none, none⟩ 4)
        [] "not json").fst.accepted = false ∧
    (GitHubWebhookIngestor.handleWebhook (β := Unit) (fun _ _ => "")
        (fun _ => none) "t0"
        (GitHubWebhookIngestor.new Unit "github" [] ⟨"github", none, none⟩ 4)
        [] "not json").snd =
      GitHubWebhookIngestor.new Unit "github" [] ⟨"github", none, none⟩ 4 :=
  ⟨by decide,
    github_webhook_reject_atomic Unit (fun _ _ => "") (fun _ => none) "t0"
      (GitHubWebhookIngestor.new Unit "github" [] ⟨"github", none, none⟩ 4)
      [] "not json" (by decide)⟩

-- ── Ingestor manager: getAllEvents (src/remote/ingestors/manager.js) ────

/-- Model of `s.startsWith(pat)` over the character lists (kernel-evaluable model of
JS `String.prototype.startsWith`). -/
def startsWithList : List Char → List Char → Bool
  | _, [] => true
  | [], _ :: _ => false
  | c :: cs, d :: ds => c = d && startsWithList cs ds

def jsStartsWith (s pat : String) : Bool :=
  startsWithList s.toList pat.toList

/-- The manager's registry of running ingestors: a JS `Map`, iterated in
insertion order, keyed by `callerAlias:connectionAlias`. -/
structure IngestorManager (α : Type) where
  ingestors : List (String × BaseIngestor α)

/-- The merge loop of `getAllEvents`: the events of every ingestor whose key
starts with `callerAlias:`, concatenated in registry iteration order. -/
def collectEvents (items : List (String × BaseIngestor α)) (callerAlias : String)
    (afterId : Int) : List (IngestedEvent α) :=
  (items.filter (fun p => jsStartsWith p.1 (callerAlias ++ ":"))).flatMap
    (fun p => p.2.getEvents afterId)

/-- Method `getAllEvents(callerAlias, afterId)`: merge then
`events.sort((a, b) => a.receivedAt.localeCompare(b.receivedAt))`.
`localeCompare` on ISO-8601 timestamps coincides with code-point order,
modelled as `String` `≤`; `Array.prototype.sort` is stable (ES2019) and is
modelled by insertion sort, which is stable for the same comparator. -/
def IngestorManager.getAllEvents (m : IngestorManager α) (callerAlias : String)
    (afterId : Int) : List (IngestedEvent α) :=
  List.insertionSort (fun a b => a.receivedAt ≤ b.receivedAt)
    (collectEvents m.ingestors callerAlias afterId)

-- Stability of insertion sort on a string key, as filter-invariance.

theorem filter_orderedInsert_of_key_eq (key : γ → String) (t : String) (x : γ)
    (l : List γ) (hx : key x = t) :
    (List.orderedInsert (fun a b => key a ≤ key b) x l).filter
        (fun e => decide (key e = t)) =
      x :: l.filter (fun e => decide (key e = t)) := by
  induction l with
  | nil => simp [List.orderedInsert, hx]
  | cons b rest ih =>
    rw [List.orderedInsert]
    by_cases hle : key x ≤ key b
    · rw [if_pos hle]
      simp [hx]
    · rw [if_neg hle]
      have hbt : ¬ (key b = t) := by
        intro hbt
        exact hle (by rw [hx, hbt])
      rw [List.filter_cons, List.filter_cons]
      simp only [hbt, decide_False, Bool.false_eq_true, reduceIte]
      exact ih

theorem filter_orderedInsert_of_key_ne (key : γ → String) (t : String) (x : γ)
    (l : List γ) (hx : ¬ key x = t) :
    (List.orderedInsert (fun a b => key a ≤ key b) x l).filter
        (fun e => decide (key e = t)) =
      l.filter (fun e => decide (key e = t)) := by
  induction l with
  | nil => simp [List.orderedInsert, hx]
  | cons b rest ih =>
    rw [List.orderedInsert]
    by_cases hle : key x ≤ key b
    · rw [if_pos hle]
      rw [List.filter_cons]
      simp only [hx, decide_False, Bool.false_eq_true, reduceIte]
    · rw [if_neg hle]
      rw [List.filter_cons, List.filter_cons]
      by_cases hbt : key b = t
      · simp only [hbt, decide_True, reduceIte]
        rw [ih]
      · simp only [hbt, decide_False, Bool.false_eq_true, reduceIte]
        exact ih

theorem filter_insertionSort_key (key : γ → String) (t : String) (l : List γ) :
    (List.insertionSort (fun a b => key a ≤ key b) l).filter
        (fun e => decide (key e = t)) =
      l.filter (fun e => decide (key e = t)) := by
  induction l with
  | nil => rfl
  | cons x rest ih =>
    rw [List.insertionSort]
    by_cases hx : key x = t
    · rw [filter_orderedInsert_of_key_eq key t x _ hx, ih, List.filter_cons]
      simp [hx]
    · rw [filter_orderedInsert_of_key_ne key t x _ hx, ih, List.filter_cons]
      simp [hx]

/-- C8: `getAllEvents(caller, afterId)` returns exactly the merged events of
the ingestors whose key has the prefix `caller:` (a permutation of the
merge-loop output), sorted in non-decreasing `receivedAt` order, with ties
broken stably: for every timestamp, the events carrying it appear in
exactly the order the merge loop appended them. -/
theorem manager_getAllEvents_sorted_stable (α : Type) (m : IngestorManager α)
    (callerAlias : String) (afterId : Int) :
    (m.getAllEvents callerAlias afterId).Perm
        (collectEvents m.ingestors callerAlias afterId) ∧
    List.Sorted (fun a b : IngestedEvent α => a.receivedAt ≤ b.receivedAt)
        (m.getAllEvents callerAlias afterId) ∧
    ∀ t : String,
      (m.getAllEvents callerAlias afterId).filter
          (fun e => decide (e.receivedAt = t)) =
        (collectEvents m.ingestors callerAlias afterId).filter
          (fun e => decide (e.receivedAt = t)) := by
  refine ⟨List.perm_insertionSort _ _, ?_, ?_⟩
  · haveI : IsTotal (IngestedEvent α)
        (fun a b => a.receivedAt ≤ b.receivedAt) :=
      ⟨fun a b => le_total a.receivedAt b.receivedAt⟩
    haveI : IsTrans (IngestedEvent α)
        (fun a b => a.receivedAt ≤ b.receivedAt) :=
      ⟨fun _ _ _ hab hbc => le_trans hab hbc⟩
    exact List.sorted_insertionSort _ _
  · intro t
    exact filter_insertionSort_key (fun e : IngestedEvent α => e.receivedAt) t _

-- ── Ingestor manager: override merge (claim C9) ─────────────────────────

/-- Ingestor type discriminator from `src/remote/ingestors/types.ts`. -/
inductive IngestorType where
  | websocket | webhook | poll
deriving Repr, DecidableEq

/-- WebSocket ingestor config (`types.ts` plus the caller-override fields
`guildIds`/`channelIds`/`userIds` the manager tests exercise). -/
structure WebSocketIngestorConfig where
  gatewayUrl : String
  protocol : Option String
  eventFilter : Option (List String)
  intents : Option Int
  guildIds : Option (List String)
  channelIds : Option (List String)
  userIds : Option (List String)
deriving Repr, DecidableEq

/-- Poll ingestor config from `types.ts` (`body` is an opaque serialized
payload; its structure is irrelevant to the merge). -/
structure PollIngestorConfig where
  url : String
  intervalMs : Int
  method : Option String
  body : Option String
  deduplicateBy : Option String
  responsePath : Option String
  eventType : Option String
deriving Repr, DecidableEq

/-- Top-level ingestor configuration attached to a connection template. -/
structure IngestorConfig where
  type : IngestorType
  websocket : Option WebSocketIngestorConfig
  webhook : Option WebhookIngestorConfig
  poll : Option PollIngestorConfig

/-- Caller-scoped ingestor overrides. -/
structure IngestorOverrides where
  intents : Option Int
  eventFilter : Option (List String)
  guildIds : Option (List String)
  channelIds : Option (List String)
  userIds : Option (List String)
  intervalMs : Option Int
deriving Repr, DecidableEq

/-- Modelled from the spec: `IngestorManager.mergeIngestorConfig` is not
under `src/` (only its unit tests are); per the spec it deep-merges the
caller overrides into the template, applying only the fields whose shape
matches the template type (`intents`/`eventFilter`/`guildIds`/`channelIds`/
`userIds` only for websocket templates, `intervalMs` only for poll
templates), and does not mutate the original template. -/
def IngestorManager.mergeIngestorConfig (template : IngestorConfig)
    (overrides : Option IngestorOverrides) : IngestorConfig :=
  match overrides with
  | none => template
  | some o =>
    { template with
      websocket :=
        match template.type, template.websocket with
        | .websocket, some ws =>
          some { ws with
            intents := match o.intents with | some v => some v | none => ws.intents
            eventFilter :=
              match o.eventFilter with | some v => some v | none => ws.eventFilter
            guildIds := match o.guildIds with | some v => some v | none => ws.guildIds
            channelIds :=
              match o.channelIds with | some v => some v | none => ws.channelIds
            userIds := match o.userIds with | some v => some v | none => ws.userIds }
        | _, w => w
      poll :=
        match template.type, template.poll with
        | .poll, some p =>
          some { p with
            intervalMs :=
              match o.intervalMs with | some v => v | none => p.intervalMs }
        | _, pl => pl }

/-- C9: the merge is a pure function of the template (so the template value
is unchanged by the call — deep-equal before and after), and each override
field is applied only when the template's ingestor type matches the field's
shape: the `type` and `webhook` blocks are never touched, the `websocket`
block changes only for websocket templates (field-wise, provided overrides
winning), the `poll` block only for poll templates (`intervalMs` only), and
a webhook template is returned entirely unchanged. -/
theorem mergeIngestorConfig_type_guarded (template : IngestorConfig)
    (o : IngestorOverrides) :
    (IngestorManager.mergeIngestorConfig template none = template) ∧
    ((IngestorManager.mergeIngestorConfig template (some o)).type = template.type) ∧
    ((IngestorManager.mergeIngestorConfig template (some o)).webhook =
      template.webhook) ∧
    (template.type ≠ IngestorType.websocket →
      (IngestorManager.mergeIngestorConfig template (some o)).websocket =
        template.websocket) ∧
    (template.type ≠ IngestorType.poll →
      (IngestorManager.mergeIngestorConfig template (some o)).poll = template.poll) ∧
    (template.type = IngestorType.webhook →
      IngestorManager.mergeIngestorConfig template (some o) = template) ∧
    (∀ ws, template.type = IngestorType.websocket → template.websocket = some ws →
      (IngestorManager.mergeIngestorConfig template (some o)).websocket =
        some { gatewayUrl := ws.gatewayUrl
               protocol := ws.protocol
               eventFilter :=
                 match o.eventFilter with | some v => some v | none => ws.eventFilter
               intents := match o.intents with | some v => some v | none => ws.intents
               guildIds :=
                 match o.guildIds with | some v => some v | none => ws.guildIds
               channelIds :=
                 match o.channelIds with | some v => some v | none => ws.channelIds
               userIds :=
                 match o.userIds with | some v => some v | none => ws.userIds }) ∧
    (∀ p, template.type = IngestorType.poll → template.poll = some p →
      (IngestorManager.mergeIngestorConfig template (some o)).poll =
        some { p with
          intervalMs :=
            match o.intervalMs with | some v => v | none => p.intervalMs }) := by
  obtain ⟨ty, ws, wh, pl⟩ := template
  refine ⟨rfl, rfl, rfl, ?_, ?_, ?_, ?_, ?_⟩
  · intro hty
    cases ty with
    | websocket => exact absurd rfl hty
    | webhook => cases ws <;> rfl
    | poll => cases ws <;> rfl
  · intro hty
    cases ty with
    | poll => exact absurd rfl hty
    | webhook => cases pl <;> rfl
    | websocket => cases pl <;> rfl
  · intro hty
    cases hty
    cases ws <;> cases pl <;> rfl
  · intro w hty hws
    cases hty
    cases hws
    rfl
  · intro p hty hpl
    cases hty
    cases hpl
    rfl

/-- Witness for C9: the poll template of the manager tests with websocket
overrides applied — the websocket fields are ignored and only `intervalMs`
would apply. -/
theorem mergeIngestorConfig_type_guarded_witness :
    (IngestorManager.mergeIngestorConfig
        ⟨IngestorType.poll, none, none,
          some ⟨"https://api.example.com/items", 60000, some "POST", none,
            some "id", some "results", some "item_updated"⟩⟩
        (some ⟨some 4609, none, some ["123"], none, none, none⟩)).websocket =
      none ∧
    (IngestorManager.mergeIngestorConfig
        ⟨IngestorType.poll, none, none,
          some ⟨"https://api.example.com/items", 60000, some "POST", none,
            some "id", some "results", some "item_updated"⟩⟩
        (some ⟨some 4609, none, some ["123"], none, none, none⟩)).poll =
      some ⟨"https://api.example.com/items", 60000, some "POST", none,
        some "id", some "results", some "item_updated"⟩ :=
  ⟨(mergeIngestorConfig_type_guarded
      ⟨IngestorType.poll, none, none,
        some ⟨"https://api.example.com/items", 60000, some "POST", none,
          some "id", some "results", some "item_updated"⟩⟩
      ⟨some 4609, none, some ["123"], none, none, none⟩).2.2.2.1 (by decide),
    (mergeIngestorConfig_type_guarded
      ⟨IngestorType.poll, none, none,
        some ⟨"https://api.example.com/items", 60000, some "POST", none,
          some "id", some "results", some "item_updated"⟩⟩
      ⟨some 4609, none, some ["123"], none, none, none⟩).2.2.2.2.2.2.2
      ⟨"https://api.example.com/items", 60000, some "POST", none,
        some "id", some "results", some "item_updated"⟩ rfl rfl⟩

end Drawlatch
